import Mathlib

/-!
Shallow embedding of the document composition engine of `api-doc-baker`
(`src/pdf-writer.ts`, compiled form in the repository): a `PdfWriter` class
maintaining a style stack, an outline/bookmark path array, a page registry,
and a trace of drawing operations issued to the external rendering
primitive (pdfkit).  Coordinates and sizes are rationals; the behaviour of
the external primitive (string measurement, cursor advancement after a
text draw, line height) is abstracted as an explicit `Prim` record of
oracles, since it is outside the verified core.
-/

namespace PW

/-- `EFont` enum from the source. -/
inductive EFont where
  | NORM | BOLD | ITALIC | BOLD_ITALIC | MONOSPACED
deriving DecidableEq, Repr

/-- A fully-determined text style (the entries of `styleStack` and
`baseStyle`; in the source every stack entry has all fields present). -/
structure TextStyle where
  font : EFont
  fontSize : Rat
  fillColor : String
  leftMargin : Rat
  lineGap : Rat
deriving DecidableEq, Repr

/-- A partial style patch (the argument of `pushStyle` / `withStyle` /
`text`); absent fields are `none`. -/
structure StylePatch where
  font : Option EFont := none
  fontSize : Option Rat := none
  fillColor : Option String := none
  leftMargin : Option Rat := none
  lineGap : Option Rat := none
deriving DecidableEq, Repr

/-- `Object.keys(style).length > 0` test used by `text`. -/
def StylePatch.isEmpty (p : StylePatch) : Bool :=
  p.font.isNone && p.fontSize.isNone && p.fillColor.isNone &&
    p.leftMargin.isNone && p.lineGap.isNone

/-- The options object passed to `doc.text`; absent fields are `none`. -/
structure TextOpts where
  lineGap : Option Rat := none
  continued : Option Bool := none
  destination : Option String := none
  goTo : Option String := none
  underline : Option Bool := none
  x : Option Rat := none
  y : Option Rat := none
  align : Option String := none
  indent : Option Rat := none
deriving DecidableEq, Repr

/-- Configurable PDF style: `color` section (`this.style.color`). -/
structure ColorCfg where
  main : String
  secondary : String
  highlight : String
  headers : String
  subHeaders : String
  getMethod : String
  putMethod : String
  postMethod : String
  patchMethod : String
  deleteMethod : String
  otherMethods : String
deriving DecidableEq, Repr

/-- Configurable PDF style: `font` section. -/
structure FontCfg where
  baseSize : Rat
deriving DecidableEq, Repr

/-- Configurable PDF style: `format` section. -/
structure FormatCfg where
  indentStep : Rat
  horizontalMargin : Rat
  verticalMargin : Rat
deriving DecidableEq, Repr

/-- Configurable PDF style (`this.style`). -/
structure StyleCfg where
  color : ColorCfg
  font : FontCfg
  format : FormatCfg
deriving DecidableEq, Repr

/-- The default style assigned to `this.style` in the constructor. -/
def defaultStyle : StyleCfg :=
  { color :=
      { main := "#333333"
        secondary := "#6B7B8E"
        highlight := "#8A3324"
        headers := "#2A4D69"
        subHeaders := "#4B86B4"
        getMethod := "#4A90E2"
        putMethod := "#6B8E23"
        postMethod := "#D87F0A"
        patchMethod := "#C2A000"
        deleteMethod := "#D0021B"
        otherMethods := "#2A4D69" }
    font := { baseSize := 10 }
    format := { indentStep := 12, horizontalMargin := 70, verticalMargin := 50 } }

/-- A produced page: its current top/bottom margins and its height
(`doc.page.margins.top/.bottom`, `doc.page.height`). -/
structure Page where
  top : Rat
  bottom : Rat
  height : Rat
deriving DecidableEq, Repr

/-- An outline/bookmark node as created by `outline.addItem`: its title and
the node it was created under (`none` for a root item).  Nodes live in an
append-only arena, identified by their index. -/
structure ONode where
  title : String
  parent : Option Nat
deriving DecidableEq, Repr

/-- A drawing operation issued to the rendering primitive. -/
inductive Op where
  | text (page : Nat) (str : String) (atX atY : Rat) (style : TextStyle) (opts : TextOpts)
  | rect (page : Nat) (x y w h : Rat) (color : String)
deriving DecidableEq, Repr

/-- The whole mutable state of a `PdfWriter` together with the state of the
document object it drives. -/
structure Writer where
  style : StyleCfg
  baseStyle : TextStyle
  styleStack : List TextStyle
  active : TextStyle
  x : Rat
  y : Rat
  currentSectionName : String
  pageNumber : Nat
  pageHeaderNodes : List String
  nodes : List ONode
  docOutlines : List Nat
  pages : List Page
  curPage : Nat
  ops : List Op
  sealed : Bool
deriving DecidableEq, Repr

/-- Oracles for the external rendering primitive: string measurement under
a given active style, cursor position after a text draw, and line height
used by `moveUp`/`moveDown`. -/
structure Prim where
  widthOf : TextStyle → String → Rat
  heightOf : TextStyle → String → Rat
  advance : TextStyle → String → TextOpts → Rat → Rat → Rat × Rat
  lineH : TextStyle → Rat

/-- pdfkit's default page height, fixed at document creation. -/
def defaultPageHeight : Rat := 792

def headerGap : Rat := 0.7

def paraGap : Rat := 0.5

/-- `currentStyle()`: top of the stack, or `baseStyle` when empty.  The
top of the source's array (its last element) is the head of our list. -/
def currentStyle (w : Writer) : TextStyle :=
  w.styleStack.headD w.baseStyle

/-- `setStyle(style)`: activate a style on the document. -/
def setStyle (s : TextStyle) (w : Writer) : Writer :=
  { w with active := s }

/-- `pushStyle(style)`: merge a patch onto the current style (scalar fields
override, `leftMargin` accumulates), activate it, move the cursor to the
merged left margin, push.  Returns the merged style. -/
def pushStyle (p : StylePatch) (w : Writer) : TextStyle × Writer :=
  let cur := currentStyle w
  let merged : TextStyle :=
    { font := p.font.getD cur.font
      fontSize := p.fontSize.getD cur.fontSize
      fillColor := p.fillColor.getD cur.fillColor
      leftMargin := cur.leftMargin + p.leftMargin.getD 0
      lineGap := p.lineGap.getD cur.lineGap }
  (merged,
    { setStyle merged w with x := merged.leftMargin, styleStack := merged :: w.styleStack })

/-- `popStyle()`: drop the top, re-activate the new top (or base style),
move the cursor to its left margin.  Returns the re-activated style. -/
def popStyle (w : Writer) : TextStyle × Writer :=
  let stack := w.styleStack.tail
  let prev := stack.headD w.baseStyle
  (prev, { setStyle prev { w with styleStack := stack } with x := prev.leftMargin })

/-- `withStyle(style, fn)`: push, run the block, pop.  The block may raise
(second component `some e`); exactly as in the source there is no
`try`/`finally`, so on an exception the pop is skipped and the exception
propagates. -/
def withStyle (style : StylePatch) (fn : TextStyle → Writer → Writer × Option String)
    (w : Writer) : Writer × Option String :=
  let p := pushStyle style w
  let r := fn p.1 p.2
  match r.2 with
  | none => ((popStyle r.1).2, none)
  | some e => (r.1, some e)

/-- `textImpl(str, options)`: merge the current style's line gap into the
options, draw at absolute coordinates when `x` or `y` is given, the
flowing cursor otherwise, and let the primitive advance the cursor. -/
def textImpl (P : Prim) (str : String) (opts : TextOpts) (w : Writer) : Writer :=
  let st := currentStyle w
  let styledOpt := { opts with lineGap := some (opts.lineGap.getD st.lineGap) }
  let ax := styledOpt.x.getD w.x
  let ay := styledOpt.y.getD w.y
  let c := P.advance w.active str styledOpt ax ay
  { w with ops := w.ops ++ [Op.text w.curPage str ax ay w.active styledOpt],
           x := c.1, y := c.2 }

/-- `text(str, style, options)`: wrap `textImpl` in `withStyle` when a
non-empty style patch is supplied. -/
def text (P : Prim) (str : String) (style : StylePatch) (opts : TextOpts)
    (w : Writer) : Writer :=
  if style.isEmpty then textImpl P str opts w
  else (withStyle style (fun _ w1 => (textImpl P str opts w1, (none : Option String))) w).1

/-- `doc.moveDown(n)`. -/
def moveDown (P : Prim) (n : Rat) (w : Writer) : Writer :=
  { w with y := w.y + n * P.lineH w.active }

/-- `doc.moveUp()`. -/
def moveUp (P : Prim) (w : Writer) : Writer :=
  { w with y := w.y - P.lineH w.active }

/-- `lineBreak(n)`. -/
def lineBreak (P : Prim) (n : Rat) (w : Writer) : Writer :=
  moveDown P n w

/-- The base style, computed in the constructor from the default
configuration before the external style replaces it. -/
def mkBaseStyle : TextStyle :=
  { font := EFont.NORM
    fontSize := defaultStyle.font.baseSize
    fillColor := defaultStyle.color.main
    leftMargin := defaultStyle.format.horizontalMargin
    lineGap := 0 }

/-- The constructor.  `baseStyle` is initialized from the default style;
only afterwards does `if (style) this.style = style` replace the
configuration wholesale. -/
def mkWriter (ext : Option StyleCfg) : Writer :=
  let style := ext.getD defaultStyle
  { style := style
    baseStyle := mkBaseStyle
    styleStack := []
    active := mkBaseStyle
    x := style.format.horizontalMargin
    y := 0
    currentSectionName := ""
    pageNumber := 0
    pageHeaderNodes := []
    nodes := []
    docOutlines := []
    pages := []
    curPage := 0
    ops := []
    sealed := false }

/-- The message of the header-nesting error thrown by `addOutline`. -/
def nestErrMsg (level : Int) (outlinesLen : Nat) : String :=
  "A header can only be nested inside headers with level - 1. level=" ++
    toString level ++ ", previousLevel=" ++ toString ((outlinesLen : Int) - 1)

/-- Second half of `addOutline`: place the freshly created node `nid` in
the path array (`push` when `level == outlinesLen`, replace-and-truncate
when below, error otherwise).  `outlinesLen` is the length captured at the
top of `addOutline`. -/
def placeOutline (level : Int) (outlinesLen : Nat) (nid : Nat) (w : Writer) :
    Writer × Option String :=
  if level = (outlinesLen : Int) then
    ({ w with docOutlines := w.docOutlines ++ [nid] }, none)
  else if level < (outlinesLen : Int) then
    ({ w with docOutlines := (w.docOutlines.set level.toNat nid).take (level.toNat + 1) },
      none)
  else (w, some (nestErrMsg level outlinesLen))

/-- `addOutline(level, str)`: create the node (root item at level 0, child
of `docOutlines[level-1]` when `0 < level <= outlinesLen`), then place it;
any other level raises the nesting error without mutating anything. -/
def addOutline (level : Int) (str : String) (w : Writer) : Writer × Option String :=
  let outlinesLen := w.docOutlines.length
  if level = 0 then
    let nid := w.nodes.length
    placeOutline level outlinesLen nid { w with nodes := w.nodes ++ [⟨str, none⟩] }
  else if 0 < level ∧ level ≤ (outlinesLen : Int) then
    match w.docOutlines.get? (level.toNat - 1) with
    | some parent =>
      let nid := w.nodes.length
      placeOutline level outlinesLen nid { w with nodes := w.nodes ++ [⟨str, some parent⟩] }
    | none => (w, some (nestErrMsg level outlinesLen))
  else (w, some (nestErrMsg level outlinesLen))

/-- `header(level, str, anchor)`: styled text and a line break inside
`withStyle`, then `addOutline`. -/
def header (P : Prim) (level : Int) (str : String) (anchor : Option String)
    (w : Writer) : Writer × Option String :=
  let r := withStyle
    { fillColor := some w.style.color.headers, font := some EFont.BOLD,
      fontSize := some (w.style.font.baseSize + 4 - (level : Rat) * 2) }
    (fun _ w1 =>
      (lineBreak P headerGap (text P str {} { destination := anchor } w1), none)) w
  match r.2 with
  | none => addOutline level str r.1
  | some e => (r.1, some e)

/-- The `colorByMethod` lookup table of `apiHeader`. -/
def colorByMethod (cfg : StyleCfg) (m : String) : Option String :=
  if m = "get" then some cfg.color.getMethod
  else if m = "put" then some cfg.color.putMethod
  else if m = "post" then some cfg.color.postMethod
  else if m = "patch" then some cfg.color.patchMethod
  else if m = "delete" then some cfg.color.deleteMethod
  else none

/-- `apiHeader(method, endpoint, headerLevel)`: draw the colored method
banner (measure, print, move up, rectangle, reprint in white, endpoint),
then `addOutline`. -/
def apiHeader (P : Prim) (method endpoint : String) (headerLevel : Int)
    (w : Writer) : Writer × Option String :=
  let fontSize := w.style.font.baseSize + 2
  let r := withStyle { font := some EFont.BOLD, fontSize := some fontSize }
    (fun _ w1 =>
      let width := P.widthOf w1.active method
      let height := P.heightOf w1.active method
      let color := (colorByMethod w1.style method.toLower).getD w1.style.color.otherMethods
      let w2 := text P method {} { continued := some true } w1
      let w3 := text P " " {} {} w2
      let w4 := moveUp P w3
      let w5 := { w4 with ops :=
        w4.ops ++ [Op.rect w4.curPage w4.x (w4.y - fontSize / 4) width height color] }
      let w6 := text P method { fillColor := some "white" } { continued := some true } w5
      let w7 := text P ("  " ++ endpoint) { fillColor := some w6.style.color.headers } {} w6
      (lineBreak P headerGap w7, none)) w
  match r.2 with
  | none => addOutline headerLevel (method ++ " " ++ endpoint) r.1
  | some e => (r.1, some e)

/-- `subHeader(str)`. -/
def subHeader (P : Prim) (str : String) (w : Writer) : Writer :=
  (withStyle
    { fillColor := some w.style.color.subHeaders, font := some EFont.BOLD,
      fontSize := some w.style.font.baseSize }
    (fun _ w1 => (lineBreak P headerGap (text P str {} {} w1), none)) w).1

/-- `para(str)`. -/
def para (P : Prim) (str : String) (w : Writer) : Writer :=
  lineBreak P paraGap (text P str {} {} w)

/-- `description(str, options)`. -/
def description (P : Prim) (str : String) (opts : TextOpts) (w : Writer) : Writer :=
  lineBreak P 0.5 (text P str { fillColor := some w.style.color.secondary } opts w)

/-- JavaScript truthiness of an optional string (`undefined` and `''` are
falsy). -/
def truthyS : Option String → Bool
  | some s => s ≠ ""
  | none => false

/-- `doc.addPage()` together with the `pageAdded` handler installed in the
constructor: a fresh page with the configured margins, the cursor at the
top-left margin corner, the page counter incremented and the current
section name appended to `pageHeaderNodes`. -/
def addPage (w : Writer) : Writer :=
  let pg : Page := { top := w.style.format.verticalMargin,
                     bottom := w.style.format.verticalMargin,
                     height := defaultPageHeight }
  { w with pages := w.pages ++ [pg], curPage := w.pages.length,
           x := w.style.format.horizontalMargin, y := w.style.format.verticalMargin,
           pageNumber := w.pageNumber + 1,
           pageHeaderNodes := w.pageHeaderNodes ++ [w.currentSectionName] }

/-- `resetStyle()`. -/
def resetStyle (w : Writer) : Writer :=
  setStyle w.baseStyle { w with styleStack := [] }

/-- `newSection(name)`. -/
def newSection (name : String) (w : Writer) : Writer :=
  addPage (resetStyle { w with currentSectionName := name })

/-- `addTitlePage(title, subtitle, date)`. -/
def addTitlePage (P : Prim) (title : String) (subtitle date : Option String)
    (w : Writer) : Writer :=
  let w1 := addPage w
  let w2 := { w1 with y := defaultPageHeight * 0.3 }
  let w3 := lineBreak P 1
    (text P title { font := some EFont.BOLD, fontSize := some 20 }
      { align := some "center" } w2)
  let w4 :=
    if truthyS subtitle then
      lineBreak P 0.5
        (text P (subtitle.getD "") { font := some EFont.NORM, fontSize := some 14 }
          { align := some "center" } w3)
    else w3
  if truthyS date then
    text P (date.getD "")
      { font := some EFont.NORM, fontSize := some 12,
        fillColor := some w4.style.color.secondary }
      { align := some "center" } w4
  else w4

/-- `indentStart()`. -/
def indentStart (w : Writer) : Writer :=
  (pushStyle { leftMargin := some w.style.format.indentStep } w).2

/-- `indentEnd()`. -/
def indentEnd (w : Writer) : Writer :=
  (popStyle w).2

/-- The `type` field of a data field. -/
structure TypeInfo where
  text : Option String := none
  anchor : Option String := none
deriving DecidableEq, Repr

/-- One entry of the list passed to `dataFields`. -/
structure DataField where
  name : String
  required : Option Bool := none
  type : Option TypeInfo := none
  description : Option String := none
deriving DecidableEq, Repr

/-- The body of the `forEach` in `dataFields`; `origX` is the cursor
position captured before the loop. -/
def dataFieldStep (P : Prim) (origX : Rat) (w : Writer) (field : DataField) : Writer :=
  let fieldName := field.name ++ (if field.required.getD true then "" else "?")
  let fieldType : Option String :=
    match field.type.bind TypeInfo.text with
    | some t => if t = "" then none else some (t ++ ";")
    | none => none
  let w1 := text P fieldName {} { continued := some fieldType.isSome } w
  let w2 :=
    match fieldType with
    | some t =>
      let wa := text P ": " {} { continued := some true } w1
      text P t { fillColor := some wa.style.color.highlight }
        { goTo := field.type.bind TypeInfo.anchor,
          underline := some (truthyS (field.type.bind TypeInfo.anchor)) } wa
    | none => w1
  let w3 :=
    if truthyS field.description then
      let wa := moveUp P w2
      let nameAndType := fieldName ++ (match fieldType with | some t => ": " ++ t | none => "")
      text P ("  // " ++ field.description.getD "")
        { fillColor := some wa.style.color.secondary }
        { x := some (origX + wa.style.format.indentStep),
          indent := some (P.widthOf wa.active nameAndType - wa.style.format.indentStep) } wa
    else w2
  { w3 with x := origX }

/-- `dataFields(dataFields)`. -/
def dataFields (P : Prim) (fields : List DataField) (w : Writer) : Writer :=
  let origX := w.x
  fields.foldl (dataFieldStep P origX) w

/-- `enumValues(values)`: the `Values: ` label, move up, then the
comma-separated continued runs in the highlight color; the first run is
placed at the hanging-indent x-coordinate. -/
def enumValues (P : Prim) (values : List String) (w : Writer) : Writer :=
  let w1 := text P "Values: " {} {} w
  let w2 := moveUp P w1
  let nextLineIndent := w2.x + w2.style.format.indentStep
  let ind := P.widthOf w2.active "Values: " - w2.style.format.indentStep
  (withStyle { fillColor := some w2.style.color.highlight }
    (fun _ wIn =>
      (values.enum.foldl (fun acc iv =>
        let str := if iv.1 < values.length - 1 then iv.2 ++ ", " else iv.2
        let contd := decide (iv.1 < values.length - 1)
        if iv.1 = 0 then
          text P str {} { x := some nextLineIndent, indent := some ind,
                          continued := some contd } acc
        else
          text P str {} { continued := some contd } acc) wIn, none)) w2).1

/-- One iteration of the page loop in `finish()`: switch to page `i`,
capture and zero its margins, on every page but the first draw the
recorded section title (when truthy) near the top and the
`Page i / (count-1)` label near the bottom, then restore the margins. -/
def stampPage (P : Prim) (count : Nat) (i : Nat) (w : Writer) : Writer :=
  let w1 := { w with curPage := i }
  let pg := w1.pages.getD i { top := 0, bottom := 0, height := 0 }
  let origTop := pg.top
  let origBottom := pg.bottom
  let w2 := { w1 with pages := w1.pages.set i { pg with top := 0, bottom := 0 } }
  let w3 :=
    if 0 < i then
      (withStyle
        { font := some EFont.NORM, fontSize := some 9,
          fillColor := some w2.style.color.secondary }
        (fun _ wIn =>
          let wa :=
            if truthyS (wIn.pageHeaderNodes.get? i) then
              text P ((wIn.pageHeaderNodes.get? i).getD "") {}
                { y := some (origTop / 2), align := some "right" } wIn
            else wIn
          let pgNow := wa.pages.getD wa.curPage { top := 0, bottom := 0, height := 0 }
          (text P ("Page " ++ toString i ++ " / " ++ toString (count - 1)) {}
            { y := some (pgNow.height - origBottom / 2), align := some "right" } wa,
            none)) w2).1
    else w2
  let pgEnd := w3.pages.getD i { top := 0, bottom := 0, height := 0 }
  { w3 with pages := w3.pages.set i { pgEnd with top := origTop, bottom := origBottom } }

/-- `finish()`: stamp every buffered page, then seal the document
(`doc.end()`). -/
def finish (P : Prim) (w : Writer) : Writer :=
  let count := w.pages.length
  let w1 := (List.range count).foldl (fun acc i => stampPage P count i acc) w
  { w1 with sealed := true }

/-- An externally supplied (JSON-parsed) style configuration: every
recognized leaf option may be absent. -/
structure ExtColorCfg where
  main : Option String := none
  secondary : Option String := none
  highlight : Option String := none
  headers : Option String := none
  subHeaders : Option String := none
  getMethod : Option String := none
  putMethod : Option String := none
  postMethod : Option String := none
  patchMethod : Option String := none
  deleteMethod : Option String := none
  otherMethods : Option String := none
deriving DecidableEq, Repr

/-- External `font` section. -/
structure ExtFontCfg where
  baseSize : Option Rat := none
deriving DecidableEq, Repr

/-- External `format` section. -/
structure ExtFormatCfg where
  indentStep : Option Rat := none
  horizontalMargin : Option Rat := none
  verticalMargin : Option Rat := none
deriving DecidableEq, Repr

/-- External style configuration object. -/
structure ExtStyleCfg where
  color : ExtColorCfg := {}
  font : ExtFontCfg := {}
  format : ExtFormatCfg := {}
deriving DecidableEq, Repr

/-- View a complete configuration as an external one (every leaf present). -/
def toExt (c : StyleCfg) : ExtStyleCfg :=
  { color :=
      { main := some c.color.main
        secondary := some c.color.secondary
        highlight := some c.color.highlight
        headers := some c.color.headers
        subHeaders := some c.color.subHeaders
        getMethod := some c.color.getMethod
        putMethod := some c.color.putMethod
        postMethod := some c.color.postMethod
        patchMethod := some c.color.patchMethod
        deleteMethod := some c.color.deleteMethod
        otherMethods := some c.color.otherMethods }
    font := { baseSize := some c.font.baseSize }
    format :=
      { indentStep := some c.format.indentStep
        horizontalMargin := some c.format.horizontalMargin
        verticalMargin := some c.format.verticalMargin } }

/-- The configuration effectively held in `this.style` after the
constructor ran: `if (style) { this.style = style; }` replaces the default
configuration wholesale. -/
def ctorEffectiveStyle (ext : Option ExtStyleCfg) : ExtStyleCfg :=
  match ext with
  | some s => s
  | none => toExt defaultStyle

/-- The `baseStyle` captured by the constructor.  In the source it is
initialized from `this.style` before the external style replaces it, so it
always reflects the defaults, whatever `ext` is. -/
def ctorBaseStyle (_ext : Option ExtStyleCfg) : TextStyle :=
  mkBaseStyle

/-- Modelled from the spec's words for comparison (claim about the
constructor): "the effective style used by the writer is the documented
defaults overlaid with the supplied fields". -/
def specEffectiveStyle (ext : Option ExtStyleCfg) : ExtStyleCfg :=
  match ext with
  | none => toExt defaultStyle
  | some s =>
    { color :=
        { main := some (s.color.main.getD defaultStyle.color.main)
          secondary := some (s.color.secondary.getD defaultStyle.color.secondary)
          highlight := some (s.color.highlight.getD defaultStyle.color.highlight)
          headers := some (s.color.headers.getD defaultStyle.color.headers)
          subHeaders := some (s.color.subHeaders.getD defaultStyle.color.subHeaders)
          getMethod := some (s.color.getMethod.getD defaultStyle.color.getMethod)
          putMethod := some (s.color.putMethod.getD defaultStyle.color.putMethod)
          postMethod := some (s.color.postMethod.getD defaultStyle.color.postMethod)
          patchMethod := some (s.color.patchMethod.getD defaultStyle.color.patchMethod)
          deleteMethod := some (s.color.deleteMethod.getD defaultStyle.color.deleteMethod)
          otherMethods := some (s.color.otherMethods.getD defaultStyle.color.otherMethods) }
      font := { baseSize := some (s.font.baseSize.getD defaultStyle.font.baseSize) }
      format :=
        { indentStep := some (s.format.indentStep.getD defaultStyle.format.indentStep)
          horizontalMargin :=
            some (s.format.horizontalMargin.getD defaultStyle.format.horizontalMargin)
          verticalMargin :=
            some (s.format.verticalMargin.getD defaultStyle.format.verticalMargin) } }

/-- A facade call issued by the caller of the writer. -/
inductive Call where
  | titlePage (t : String) (s d : Option String)
  | sect (n : String)
  | hdr (level : Int) (str : String) (anchor : Option String)
  | apiHdr (method endpoint : String) (level : Int)
  | subHdr (s : String)
  | par (s : String)
  | descr (s : String) (o : TextOpts)
  | txt (s : String)
  | flds (fs : List DataField)
  | enums (vs : List String)
  | indS
  | indE
  | lb (n : Rat)
  | fin
deriving DecidableEq, Repr

/-- Execute one facade call. -/
def stepCall (P : Prim) : Call → Writer → Writer × Option String
  | .titlePage t s d, w => (addTitlePage P t s d w, none)
  | .sect n, w => (newSection n w, none)
  | .hdr l s a, w => header P l s a w
  | .apiHdr m e l, w => apiHeader P m e l w
  | .subHdr s, w => (subHeader P s w, none)
  | .par s, w => (para P s w, none)
  | .descr s o, w => (description P s o w, none)
  | .txt s, w => (text P s {} {} w, none)
  | .flds fs, w => (dataFields P fs w, none)
  | .enums vs, w => (enumValues P vs w, none)
  | .indS, w => (indentStart w, none)
  | .indE, w => (indentEnd w, none)
  | .lb n, w => (lineBreak P n w, none)
  | .fin, w => (finish P w, none)

/-- Execute a sequence of facade calls, stopping at the first raised
exception (which aborts the build). -/
def runCalls (P : Prim) : List Call → Writer → Writer × Option String
  | [], w => (w, none)
  | c :: cs, w =>
    let r := stepCall P c w
    match r.2 with
    | none => runCalls P cs r.1
    | some e => (r.1, some e)

/-- A heading call: either `header` or `apiHeader`. -/
inductive HCall where
  | h (level : Int) (str : String) (anchor : Option String)
  | api (method endpoint : String) (level : Int)
deriving DecidableEq, Repr

/-- The nesting level requested by a heading call. -/
def HCall.level : HCall → Int
  | .h l _ _ => l
  | .api _ _ l => l

/-- Execute one heading call. -/
def stepH (P : Prim) : HCall → Writer → Writer × Option String
  | .h l s a, w => header P l s a w
  | .api m e l, w => apiHeader P m e l w

/-- Execute a sequence of heading calls, stopping at the first error. -/
def runH (P : Prim) : List HCall → Writer → Writer × Option String
  | [], w => (w, none)
  | c :: cs, w =>
    let r := stepH P c w
    match r.2 with
    | none => runH P cs r.1
    | some e => (r.1, some e)

/-- Validity of a heading sequence: every requested level is non-negative
and at most the length of the outline path array at the moment of the
call (i.e. at most one greater than the maximum currently valid level). -/
def validHb (P : Prim) (w : Writer) : List HCall → Bool
  | [] => true
  | c :: cs =>
    decide (0 ≤ c.level) && decide (c.level ≤ (w.docOutlines.length : Int)) &&
      validHb P (stepH P c w).1 cs

/-- A concrete rendering-primitive oracle for witnesses and
counterexamples. -/
def P0 : Prim :=
  { widthOf := fun _ s => (s.length : Rat)
    heightOf := fun _ _ => 10
    advance := fun _ s _ x y => (x + (s.length : Rat), y + 12)
    lineH := fun _ => 12 }

/-- The creation-time parent of outline node `id` of `w`, when the node
exists. -/
def nodeParent (w : Writer) (id : Nat) : Option (Option Nat) :=
  (w.nodes.get? id).map ONode.parent

/-- The outline path array is a chain: the node stored at each level
`k+1` was created as a child of the node stored at level `k`. -/
def linkedPath (w : Writer) : Prop :=
  ∀ i a b, w.docOutlines.get? i = some a → w.docOutlines.get? (i + 1) = some b →
    nodeParent w b = some (some a)

/-- The data of a text-drawing operation relevant to continued runs: the
string, the `continued` option and the absolute-x option it was issued
with. -/
def opRunProj : Op → String × Option Bool × Option Rat
  | .text _ s _ _ _ opts => (s, opts.continued, opts.x)
  | .rect _ _ _ _ _ _ => ("", none, none)

/-- An external configuration supplying only a base font size. -/
def extBaseSizeOnly : ExtStyleCfg := { font := { baseSize := some 20 } }

/-- The data of a drawing operation relevant to header/footer stamping:
the page it was issued on, the string, and the absolute-y and alignment
options. -/
def opStampProj : Op → Nat × String × Option Rat × Option String
  | .text pg s _ _ _ opts => (pg, s, opts.y, opts.align)
  | .rect pg _ _ _ _ _ => (pg, "", none, none)

/-- The stamps `finish` issues for page `i` (of `count` pages), projected
through `opStampProj`: nothing for the title page; for every other page
the recorded section title near the top when truthy, then the
`Page i / (count-1)` label near the bottom. -/
def stampProj (w : Writer) (count : Nat) (i : Nat) :
    List (Nat × String × Option Rat × Option String) :=
  if i = 0 then [] else
    (if truthyS (w.pageHeaderNodes.get? i) then
        [(i, (w.pageHeaderNodes.get? i).getD "",
          some ((w.pages.getD i { top := 0, bottom := 0, height := 0 }).top / 2),
          some "right")]
      else [])
    ++ [(i, "Page " ++ toString i ++ " / " ++ toString (count - 1),
          some ((w.pages.getD i { top := 0, bottom := 0, height := 0 }).height
            - (w.pages.getD i { top := 0, bottom := 0, height := 0 }).bottom / 2),
          some "right")]

/-- A two-page document state for witnesses: a title page and one content
page whose recorded section is `Intro`. -/
def w2pages : Writer :=
  { mkWriter none with
      pages := [{ top := 50, bottom := 50, height := 792 },
                { top := 50, bottom := 50, height := 792 }],
      pageHeaderNodes := ["", "Intro"],
      pageNumber := 2 }

/-! ### List helpers -/

theorem list_getD_set_self {α : Type} (l : List α) (i : Nat) (a d : α)
    (h : i < l.length) : (l.set i a).getD i d = a := by
  induction l generalizing i with
  | nil => simp at h
  | cons x xs ih =>
    cases i with
    | zero => rfl
    | succ j => exact ih j (by simpa using h)

theorem list_set_getD_self {α : Type} (l : List α) (i : Nat) (d : α)
    (h : i < l.length) : l.set i (l.getD i d) = l := by
  induction l generalizing i with
  | nil => simp at h
  | cons x xs ih =>
    cases i with
    | zero => rfl
    | succ j => simpa using ih j (by simpa using h)

theorem list_set_set_general {α : Type} (l : List α) (i : Nat) (a b : α) :
    (l.set i a).set i b = l.set i b := by
  induction l generalizing i with
  | nil => rfl
  | cons x xs ih =>
    cases i with
    | zero => rfl
    | succ j => simpa using ih j

theorem list_set_getElem_self {α : Type} (l : List α) (i : Nat) (h : i < l.length) :
    l.set i l[i] = l := by
  induction l generalizing i with
  | nil => rfl
  | cons x xs ih =>
    cases i with
    | zero => rfl
    | succ j => simpa using ih j (by simpa using h)

theorem list_set_take_succ {α : Type} (l : List α) (i : Nat) (a : α)
    (h : i < l.length) : (l.set i a).take (i + 1) = l.take i ++ [a] := by
  induction l generalizing i with
  | nil => simp at h
  | cons x xs ih =>
    cases i with
    | zero => simp
    | succ j => simpa using ih j (by simpa using h)

/-! ### Frame lemmas: which fields each primitive operation leaves alone -/

@[simp] theorem pushStyle_snd_docOutlines (p : StylePatch) (w : Writer) :
    ((pushStyle p w).2).docOutlines = w.docOutlines := rfl

@[simp] theorem pushStyle_snd_nodes (p : StylePatch) (w : Writer) :
    ((pushStyle p w).2).nodes = w.nodes := rfl

@[simp] theorem pushStyle_snd_pageHeaderNodes (p : StylePatch) (w : Writer) :
    ((pushStyle p w).2).pageHeaderNodes = w.pageHeaderNodes := rfl

@[simp] theorem pushStyle_snd_pageNumber (p : StylePatch) (w : Writer) :
    ((pushStyle p w).2).pageNumber = w.pageNumber := rfl

@[simp] theorem pushStyle_snd_pages (p : StylePatch) (w : Writer) :
    ((pushStyle p w).2).pages = w.pages := rfl

@[simp] theorem pushStyle_snd_currentSectionName (p : StylePatch) (w : Writer) :
    ((pushStyle p w).2).currentSectionName = w.currentSectionName := rfl

@[simp] theorem pushStyle_snd_style (p : StylePatch) (w : Writer) :
    ((pushStyle p w).2).style = w.style := rfl

@[simp] theorem pushStyle_snd_curPage (p : StylePatch) (w : Writer) :
    ((pushStyle p w).2).curPage = w.curPage := rfl

@[simp] theorem pushStyle_snd_baseStyle (p : StylePatch) (w : Writer) :
    ((pushStyle p w).2).baseStyle = w.baseStyle := rfl

@[simp] theorem pushStyle_snd_ops (p : StylePatch) (w : Writer) :
    ((pushStyle p w).2).ops = w.ops := rfl

@[simp] theorem pushStyle_snd_sealed (p : StylePatch) (w : Writer) :
    ((pushStyle p w).2).sealed = w.sealed := rfl

@[simp] theorem pushStyle_snd_styleStack (p : StylePatch) (w : Writer) :
    ((pushStyle p w).2).styleStack = (pushStyle p w).1 :: w.styleStack := rfl

@[simp] theorem popStyle_snd_docOutlines (w : Writer) :
    ((popStyle w).2).docOutlines = w.docOutlines := rfl

@[simp] theorem popStyle_snd_nodes (w : Writer) :
    ((popStyle w).2).nodes = w.nodes := rfl

@[simp] theorem popStyle_snd_pageHeaderNodes (w : Writer) :
    ((popStyle w).2).pageHeaderNodes = w.pageHeaderNodes := rfl

@[simp] theorem popStyle_snd_pageNumber (w : Writer) :
    ((popStyle w).2).pageNumber = w.pageNumber := rfl

@[simp] theorem popStyle_snd_pages (w : Writer) :
    ((popStyle w).2).pages = w.pages := rfl

@[simp] theorem popStyle_snd_currentSectionName (w : Writer) :
    ((popStyle w).2).currentSectionName = w.currentSectionName := rfl

@[simp] theorem popStyle_snd_style (w : Writer) :
    ((popStyle w).2).style = w.style := rfl

@[simp] theorem popStyle_snd_curPage (w : Writer) :
    ((popStyle w).2).curPage = w.curPage := rfl

@[simp] theorem popStyle_snd_baseStyle (w : Writer) :
    ((popStyle w).2).baseStyle = w.baseStyle := rfl

@[simp] theorem popStyle_snd_ops (w : Writer) :
    ((popStyle w).2).ops = w.ops := rfl

@[simp] theorem popStyle_snd_sealed (w : Writer) :
    ((popStyle w).2).sealed = w.sealed := rfl

@[simp] theorem popStyle_snd_styleStack (w : Writer) :
    ((popStyle w).2).styleStack = w.styleStack.tail := rfl

@[simp] theorem textImpl_docOutlines (P : Prim) (s : String) (o : TextOpts) (w : Writer) :
    (textImpl P s o w).docOutlines = w.docOutlines := rfl

@[simp] theorem textImpl_nodes (P : Prim) (s : String) (o : TextOpts) (w : Writer) :
    (textImpl P s o w).nodes = w.nodes := rfl

@[simp] theorem textImpl_pageHeaderNodes (P : Prim) (s : String) (o : TextOpts) (w : Writer) :
    (textImpl P s o w).pageHeaderNodes = w.pageHeaderNodes := rfl

@[simp] theorem textImpl_pageNumber (P : Prim) (s : String) (o : TextOpts) (w : Writer) :
    (textImpl P s o w).pageNumber = w.pageNumber := rfl

@[simp] theorem textImpl_pages (P : Prim) (s : String) (o : TextOpts) (w : Writer) :
    (textImpl P s o w).pages = w.pages := rfl

@[simp] theorem textImpl_currentSectionName (P : Prim) (s : String) (o : TextOpts) (w : Writer) :
    (textImpl P s o w).currentSectionName = w.currentSectionName := rfl

@[simp] theorem textImpl_style (P : Prim) (s : String) (o : TextOpts) (w : Writer) :
    (textImpl P s o w).style = w.style := rfl

@[simp] theorem textImpl_curPage (P : Prim) (s : String) (o : TextOpts) (w : Writer) :
    (textImpl P s o w).curPage = w.curPage := rfl

@[simp] theorem textImpl_baseStyle (P : Prim) (s : String) (o : TextOpts) (w : Writer) :
    (textImpl P s o w).baseStyle = w.baseStyle := rfl

@[simp] theorem textImpl_styleStack (P : Prim) (s : String) (o : TextOpts) (w : Writer) :
    (textImpl P s o w).styleStack = w.styleStack := rfl

@[simp] theorem textImpl_sealed (P : Prim) (s : String) (o : TextOpts) (w : Writer) :
    (textImpl P s o w).sealed = w.sealed := rfl

@[simp] theorem textImpl_active (P : Prim) (s : String) (o : TextOpts) (w : Writer) :
    (textImpl P s o w).active = w.active := rfl

@[simp] theorem text_docOutlines (P : Prim) (s : String) (p : StylePatch) (o : TextOpts)
    (w : Writer) : (text P s p o w).docOutlines = w.docOutlines := by
  unfold text; split <;> rfl

@[simp] theorem text_nodes (P : Prim) (s : String) (p : StylePatch) (o : TextOpts)
    (w : Writer) : (text P s p o w).nodes = w.nodes := by
  unfold text; split <;> rfl

@[simp] theorem text_pageHeaderNodes (P : Prim) (s : String) (p : StylePatch) (o : TextOpts)
    (w : Writer) : (text P s p o w).pageHeaderNodes = w.pageHeaderNodes := by
  unfold text; split <;> rfl

@[simp] theorem text_pageNumber (P : Prim) (s : String) (p : StylePatch) (o : TextOpts)
    (w : Writer) : (text P s p o w).pageNumber = w.pageNumber := by
  unfold text; split <;> rfl

@[simp] theorem text_pages (P : Prim) (s : String) (p : StylePatch) (o : TextOpts)
    (w : Writer) : (text P s p o w).pages = w.pages := by
  unfold text; split <;> rfl

@[simp] theorem text_currentSectionName (P : Prim) (s : String) (p : StylePatch) (o : TextOpts)
    (w : Writer) : (text P s p o w).currentSectionName = w.currentSectionName := by
  unfold text; split <;> rfl

@[simp] theorem text_style (P : Prim) (s : String) (p : StylePatch) (o : TextOpts)
    (w : Writer) : (text P s p o w).style = w.style := by
  unfold text; split <;> rfl

@[simp] theorem text_curPage (P : Prim) (s : String) (p : StylePatch) (o : TextOpts)
    (w : Writer) : (text P s p o w).curPage = w.curPage := by
  unfold text; split <;> rfl

@[simp] theorem text_baseStyle (P : Prim) (s : String) (p : StylePatch) (o : TextOpts)
    (w : Writer) : (text P s p o w).baseStyle = w.baseStyle := by
  unfold text; split <;> rfl

@[simp] theorem text_styleStack (P : Prim) (s : String) (p : StylePatch) (o : TextOpts)
    (w : Writer) : (text P s p o w).styleStack = w.styleStack := by
  unfold text; split <;> rfl

@[simp] theorem text_sealed (P : Prim) (s : String) (p : StylePatch) (o : TextOpts)
    (w : Writer) : (text P s p o w).sealed = w.sealed := by
  unfold text; split <;> rfl

@[simp] theorem moveDown_frame (P : Prim) (n : Rat) (w : Writer) :
    (moveDown P n w) = { w with y := w.y + n * P.lineH w.active } := rfl

@[simp] theorem moveUp_frame (P : Prim) (w : Writer) :
    (moveUp P w) = { w with y := w.y - P.lineH w.active } := rfl

@[simp] theorem lineBreak_frame (P : Prim) (n : Rat) (w : Writer) :
    (lineBreak P n w) = { w with y := w.y + n * P.lineH w.active } := rfl

/-! ### C3: `withStyle` and exceptions -/

/-- C3 (counterexample): `withStyle` does NOT pop on the exceptional exit
path: with a block that raises immediately, the style stack after the
failed `withStyle` differs from the stack before it (the pushed style
leaks). -/
theorem withStyle_exception_leaks_cex :
    ¬ ((withStyle {} (fun _ w1 => (w1, some "boom")) (mkWriter none)).1.styleStack
        = (mkWriter none).styleStack) := by decide

/-- C3 (amended): `withStyle(P, fn)` performs `push(P)`, invokes `fn` with
the merged style, and pops only on the normal exit path: for a block that
returns normally without altering the state, the style stack after
`withStyle` equals the stack before it; if the block raises, the pushed
style is not popped (it remains on top of the stack) and the exception
propagates to the caller. -/
theorem withStyle_pop_on_normal_exit (p : StylePatch)
    (fn : TextStyle → Writer → Writer × Option String) (w : Writer) (e : String)
    (hfn : ∀ s w1, fn s w1 = (w1, none)) :
    ((withStyle p fn w).1.styleStack = w.styleStack ∧ (withStyle p fn w).2 = none) ∧
      ((withStyle p (fun _ w1 => (w1, some e)) w).1.styleStack
          = (pushStyle p w).1 :: w.styleStack ∧
        (withStyle p (fun _ w1 => (w1, some e)) w).2 = some e) := by
  refine ⟨?_, by simp [withStyle]⟩
  unfold withStyle
  dsimp only
  rw [hfn]
  exact ⟨rfl, rfl⟩

/-- Witness for `withStyle_pop_on_normal_exit` at a concrete patch, block
and state. -/
theorem withStyle_pop_on_normal_exit_wit :
    (((withStyle { fontSize := some 9 } (fun _ w1 => (w1, none)) (mkWriter none)).1.styleStack
        = (mkWriter none).styleStack ∧
      (withStyle { fontSize := some 9 } (fun _ w1 => (w1, none)) (mkWriter none)).2 = none) ∧
      ((withStyle { fontSize := some 9 } (fun _ w1 => (w1, some "x")) (mkWriter none)).1.styleStack
          = (pushStyle { fontSize := some 9 } (mkWriter none)).1 :: (mkWriter none).styleStack ∧
        (withStyle { fontSize := some 9 } (fun _ w1 => (w1, some "x")) (mkWriter none)).2
          = some "x")) :=
  withStyle_pop_on_normal_exit { fontSize := some 9 } (fun _ w1 => (w1, none))
    (mkWriter none) "x" (fun _ _ => rfl)

/-! ### C5: push then pop -/

/-- C5 (counterexample): `pushStyle` immediately followed by `popStyle`
does not restore the cursor x position: starting from a state whose cursor
sits at `x = 999` (away from the left margin), the pop resets the cursor
to the restored style's left margin, not to the pre-push position. -/
theorem push_pop_cursor_cex :
    ((popStyle (pushStyle {} { mkWriter none with x := 999 }).2).2).x
      ≠ ({ mkWriter none with x := 999 } : Writer).x := by decide

/-- C5 (amended): `pushStyle(P)` immediately followed by `popStyle()`
restores the style stack and the active style exactly (every field,
including `leftMargin`); the cursor x position, however, is set to the
restored style's `leftMargin` — it equals its pre-push value only when the
cursor was already at the left margin. -/
theorem push_pop_restores (p : StylePatch) (w : Writer)
    (h : w.active = currentStyle w) :
    ((popStyle (pushStyle p w).2).2).styleStack = w.styleStack ∧
    ((popStyle (pushStyle p w).2).2).active = w.active ∧
    ((popStyle (pushStyle p w).2).2).x = (currentStyle w).leftMargin := by
  refine ⟨rfl, ?_, rfl⟩
  rw [h]; rfl

/-- Witness for `push_pop_restores` at a concrete patch and state. -/
theorem push_pop_restores_wit :
    ((mkWriter none).active = currentStyle (mkWriter none)) ∧
    (((popStyle (pushStyle { leftMargin := some 5 } (mkWriter none)).2).2).styleStack
        = (mkWriter none).styleStack ∧
      ((popStyle (pushStyle { leftMargin := some 5 } (mkWriter none)).2).2).active
        = (mkWriter none).active ∧
      ((popStyle (pushStyle { leftMargin := some 5 } (mkWriter none)).2).2).x
        = (currentStyle (mkWriter none)).leftMargin) :=
  ⟨rfl, push_pop_restores { leftMargin := some 5 } (mkWriter none) rfl⟩

/-! ### C6: additive left margin -/

/-- C6: `pushStyle` merges the patch so that `leftMargin` accumulates
additively (merged margin = current margin + patch margin, other fields
override), and consequently `indentStart(); indentStart(); indentEnd();`
leaves the current left margin (both in the current style and as the
cursor position installed by the pop) exactly one indent step above the
pre-sequence margin. -/
theorem leftMargin_additive (p : StylePatch) (w : Writer) :
    ((pushStyle p w).1).leftMargin = (currentStyle w).leftMargin + p.leftMargin.getD 0 ∧
    ((pushStyle p w).1).font = p.font.getD (currentStyle w).font ∧
    ((pushStyle p w).1).fontSize = p.fontSize.getD (currentStyle w).fontSize ∧
    ((pushStyle p w).1).fillColor = p.fillColor.getD (currentStyle w).fillColor ∧
    ((pushStyle p w).1).lineGap = p.lineGap.getD (currentStyle w).lineGap ∧
    (currentStyle (indentEnd (indentStart (indentStart w)))).leftMargin
        = (currentStyle w).leftMargin + w.style.format.indentStep ∧
    (indentEnd (indentStart (indentStart w))).x
        = (currentStyle w).leftMargin + w.style.format.indentStep := by
  refine ⟨rfl, rfl, rfl, rfl, rfl, ?_, ?_⟩ <;>
    simp [indentStart, indentEnd, pushStyle, popStyle, setStyle, currentStyle]

/-! ### Outline lemmas -/

theorem addOutline_too_deep (w : Writer) (l : Int) (s : String)
    (h : (w.docOutlines.length : Int) < l) :
    addOutline l s w = (w, some (nestErrMsg l w.docOutlines.length)) := by
  unfold addOutline
  dsimp only
  rw [if_neg (by omega), if_neg (by omega)]

theorem addOutline_zero (w : Writer) (s : String) :
    addOutline 0 s w
      = ({ w with
            nodes := w.nodes ++ [⟨s, none⟩],
            docOutlines := w.docOutlines.take 0 ++ [w.nodes.length] }, none) := by
  unfold addOutline placeOutline
  dsimp only
  rw [if_pos rfl]
  by_cases hlen : w.docOutlines.length = 0
  · rw [if_pos (by omega)]
    have : w.docOutlines = [] := List.length_eq_zero.1 hlen
    simp [this]
  · rw [if_neg (by omega), if_pos (by omega)]
    have : ((0 : Int).toNat) = 0 := rfl
    simp only [this]
    rw [list_set_take_succ _ _ _ (by omega)]

theorem addOutline_pos (w : Writer) (l : Int) (s : String) (pid : Nat)
    (h0 : 0 < l) (hle : l ≤ (w.docOutlines.length : Int))
    (hget : w.docOutlines.get? (l.toNat - 1) = some pid) :
    addOutline l s w
      = ({ w with
            nodes := w.nodes ++ [⟨s, some pid⟩],
            docOutlines := w.docOutlines.take l.toNat ++ [w.nodes.length] }, none) := by
  unfold addOutline placeOutline
  dsimp only
  rw [if_neg (by omega), if_pos ⟨h0, hle⟩, hget]
  dsimp only
  by_cases heq : l = (w.docOutlines.length : Int)
  · rw [if_pos heq]
    have ht : l.toNat = w.docOutlines.length := by omega
    rw [ht, List.take_length]
  · rw [if_neg heq, if_pos (by omega)]
    rw [list_set_take_succ _ _ _ (by omega)]

/-- `header` is `addOutline` applied to a state whose outline-related and
page-related fields are untouched (only text was drawn). -/
theorem header_run (P : Prim) (l : Int) (s : String) (a : Option String) (w : Writer) :
    ∃ wB : Writer, header P l s a w = addOutline l s wB ∧
      wB.docOutlines = w.docOutlines ∧ wB.nodes = w.nodes ∧
      wB.pageHeaderNodes = w.pageHeaderNodes ∧ wB.pageNumber = w.pageNumber ∧
      wB.pages = w.pages ∧ wB.style = w.style ∧
      wB.currentSectionName = w.currentSectionName := by
  refine ⟨_, rfl, ?_, ?_, ?_, ?_, ?_, ?_, ?_⟩ <;>
    simp [withStyle, pushStyle, popStyle, setStyle]

/-- `apiHeader` is `addOutline` applied to a state whose outline-related
and page-related fields are untouched (only the banner was drawn). -/
theorem apiHeader_run (P : Prim) (m ep : String) (l : Int) (w : Writer) :
    ∃ wB : Writer, apiHeader P m ep l w = addOutline l (m ++ " " ++ ep) wB ∧
      wB.docOutlines = w.docOutlines ∧ wB.nodes = w.nodes ∧
      wB.pageHeaderNodes = w.pageHeaderNodes ∧ wB.pageNumber = w.pageNumber ∧
      wB.pages = w.pages ∧ wB.style = w.style ∧
      wB.currentSectionName = w.currentSectionName := by
  refine ⟨_, rfl, ?_, ?_, ?_, ?_, ?_, ?_, ?_⟩ <;>
    simp [withStyle, pushStyle, popStyle, setStyle]

theorem linkedPath_congr (w w' : Writer) (hd : w'.docOutlines = w.docOutlines)
    (hn : w'.nodes = w.nodes) (h : linkedPath w) : linkedPath w' := by
  intro i a b ha hb
  rw [hd] at ha hb
  have hp := h i a b ha hb
  unfold nodeParent at hp ⊢
  rw [hn]
  exact hp

theorem linkedPath_extend (w : Writer) (t : Nat) (s : String) (pnt : Option Nat)
    (hle : t ≤ w.docOutlines.length)
    (hp : ∀ k, t = k + 1 → ∃ pid, w.docOutlines.get? k = some pid ∧ pnt = some pid)
    (hlink : linkedPath w) :
    linkedPath { w with
      nodes := w.nodes ++ [⟨s, pnt⟩],
      docOutlines := w.docOutlines.take t ++ [w.nodes.length] } := by
  intro i a b ha hb
  have hlen : (w.docOutlines.take t).length = t := by
    rw [List.length_take]; omega
  unfold nodeParent
  dsimp only at ha hb ⊢
  rcases Nat.lt_trichotomy (i + 1) t with hc | hc | hc
  · -- both entries lie in the untouched prefix
    have ha' : w.docOutlines.get? i = some a := by
      rw [List.get?_append (by omega), List.get?_take (by omega)] at ha
      exact ha
    have hb' : w.docOutlines.get? (i + 1) = some b := by
      rw [List.get?_append (by omega), List.get?_take (by omega)] at hb
      exact hb
    have hpar := hlink i a b ha' hb'
    unfold nodeParent at hpar
    obtain ⟨nd, hnd, hpnd⟩ := Option.map_eq_some'.1 hpar
    have hblt : b < w.nodes.length := by
      by_contra hh
      rw [List.get?_eq_none.2 (by omega)] at hnd
      exact Option.noConfusion hnd
    rw [List.get?_append hblt, hnd]
    simp [hpnd]
  · -- the deeper entry is the fresh node
    have hb' : b = w.nodes.length := by
      have hcl : i + 1 = (w.docOutlines.take t).length := by omega
      rw [hcl, List.get?_concat_length] at hb
      exact (Option.some.inj hb).symm
    have ha' : w.docOutlines.get? i = some a := by
      rw [List.get?_append (by omega), List.get?_take (by omega)] at ha
      exact ha
    obtain ⟨pid, hpid, hpnt⟩ := hp i (by omega)
    have hap : a = pid := by
      rw [ha'] at hpid; exact Option.some.inj hpid
    rw [hb', List.get?_concat_length]
    simp [hpnt, hap]
  · -- beyond the new path: no such entry
    exfalso
    have : (w.docOutlines.take t ++ [w.nodes.length]).get? (i + 1) = none := by
      apply List.get?_eq_none.2
      simp only [List.length_append, hlen, List.length_cons, List.length_nil]
      omega
    rw [this] at hb
    exact Option.noConfusion hb

theorem addOutline_ok (w : Writer) (l : Int) (s : String)
    (h0 : 0 ≤ l) (hle : l ≤ (w.docOutlines.length : Int)) (hlink : linkedPath w) :
    (addOutline l s w).2 = none ∧
    (addOutline l s w).1.docOutlines.length = l.toNat + 1 ∧
    linkedPath (addOutline l s w).1 := by
  by_cases hz : l = 0
  · subst hz
    rw [addOutline_zero]
    refine ⟨rfl, by simp, ?_⟩
    exact linkedPath_extend w 0 s none (by omega) (fun k hk => by omega) hlink
  · have hpos : 0 < l := by omega
    have hidx : l.toNat - 1 < w.docOutlines.length := by omega
    obtain ⟨pid, hget⟩ : ∃ pid, w.docOutlines.get? (l.toNat - 1) = some pid := by
      rw [List.get?_eq_get hidx]; exact ⟨_, rfl⟩
    rw [addOutline_pos w l s pid hpos hle hget]
    refine ⟨rfl, ?_, ?_⟩
    · simp only [List.length_append, List.length_take, List.length_cons, List.length_nil]
      omega
    · refine linkedPath_extend w l.toNat s (some pid) (by omega) (fun k hk => ?_) hlink
      have hk' : k = l.toNat - 1 := by omega
      exact ⟨pid, by rw [hk']; exact hget, rfl⟩

theorem stepH_ok (P : Prim) (c : HCall) (w : Writer)
    (h0 : 0 ≤ c.level) (hle : c.level ≤ (w.docOutlines.length : Int))
    (hlink : linkedPath w) :
    (stepH P c w).2 = none ∧
    (stepH P c w).1.docOutlines.length = c.level.toNat + 1 ∧
    linkedPath (stepH P c w).1 := by
  cases c with
  | h l s a =>
    obtain ⟨wB, heq, hdo, hn, _⟩ := header_run P l s a w
    have hlink' : linkedPath wB := linkedPath_congr w wB hdo hn hlink
    have hh := addOutline_ok wB l s h0 (by rw [hdo]; exact hle) hlink'
    simpa [stepH, heq, HCall.level] using hh
  | api m ep l =>
    obtain ⟨wB, heq, hdo, hn, _⟩ := apiHeader_run P m ep l w
    have hlink' : linkedPath wB := linkedPath_congr w wB hdo hn hlink
    have hh := addOutline_ok wB l (m ++ " " ++ ep) h0 (by rw [hdo]; exact hle) hlink'
    simpa [stepH, heq, HCall.level] using hh

theorem runH_ok (P : Prim) (hs : List HCall) (w : Writer)
    (hlink : linkedPath w) (hval : validHb P w hs = true) :
    (runH P hs w).2 = none ∧ linkedPath (runH P hs w).1 ∧
      (runH P hs w).1.docOutlines.length
        = (match hs.getLast? with
           | some c => c.level.toNat + 1
           | none => w.docOutlines.length) := by
  induction hs generalizing w with
  | nil => exact ⟨rfl, hlink, rfl⟩
  | cons c cs ih =>
    unfold validHb at hval
    rw [Bool.and_eq_true, Bool.and_eq_true] at hval
    obtain ⟨⟨h0, hle⟩, hrest⟩ := hval
    rw [decide_eq_true_eq] at h0 hle
    obtain ⟨he, hlen, hlink'⟩ := stepH_ok P c w h0 hle hlink
    have hstep : runH P (c :: cs) w = runH P cs (stepH P c w).1 := by
      rw [runH]
      simp only [he]
    rw [hstep]
    obtain ⟨ih1, ih2, ih3⟩ := ih (stepH P c w).1 hlink' hrest
    refine ⟨ih1, ih2, ?_⟩
    rw [ih3]
    cases cs with
    | nil => simpa using hlen
    | cons c2 cs2 =>
      rw [List.getLast?_cons_cons,
        List.getLast?_eq_getLast_of_ne_nil (List.cons_ne_nil c2 cs2)]

/-! ### C2: a too-deep level raises and mutates nothing -/

/-- C2: for every state of the outline path array and every call to
`addOutline` with a level strictly greater than the current path length —
also when reached through `header` or `apiHeader`, which both route into
the same `addOutline` — the call raises the header-nesting error and the
outline path array (and the outline node arena) is exactly the same after
the failed call as before it. -/
theorem addOutline_too_deep_error (P : Prim) (w : Writer) (l : Int) (s : String)
    (a : Option String) (m ep : String)
    (h : (w.docOutlines.length : Int) < l) :
    addOutline l s w = (w, some (nestErrMsg l w.docOutlines.length)) ∧
    ((header P l s a w).2 = some (nestErrMsg l w.docOutlines.length) ∧
      (header P l s a w).1.docOutlines = w.docOutlines ∧
      (header P l s a w).1.nodes = w.nodes) ∧
    ((apiHeader P m ep l w).2 = some (nestErrMsg l w.docOutlines.length) ∧
      (apiHeader P m ep l w).1.docOutlines = w.docOutlines ∧
      (apiHeader P m ep l w).1.nodes = w.nodes) := by
  refine ⟨addOutline_too_deep w l s h, ?_, ?_⟩
  · obtain ⟨wB, heq, hdo, hn, _⟩ := header_run P l s a w
    rw [heq, addOutline_too_deep wB l s (by rw [hdo]; exact h)]
    exact ⟨by rw [hdo], hdo, hn⟩
  · obtain ⟨wB, heq, hdo, hn, _⟩ := apiHeader_run P m ep l w
    rw [heq, addOutline_too_deep wB l (m ++ " " ++ ep) (by rw [hdo]; exact h)]
    exact ⟨by rw [hdo], hdo, hn⟩

/-- Witness for `addOutline_too_deep_error`: level 2 on a fresh writer
(empty path array). -/
theorem addOutline_too_deep_error_wit :
    (((mkWriter none).docOutlines.length : Int) < 2) ∧
    (addOutline 2 "A" (mkWriter none)
        = (mkWriter none, some (nestErrMsg 2 (mkWriter none).docOutlines.length)) ∧
      ((header P0 2 "A" none (mkWriter none)).2
          = some (nestErrMsg 2 (mkWriter none).docOutlines.length) ∧
        (header P0 2 "A" none (mkWriter none)).1.docOutlines
          = (mkWriter none).docOutlines ∧
        (header P0 2 "A" none (mkWriter none)).1.nodes = (mkWriter none).nodes) ∧
      ((apiHeader P0 "GET" "/u" 2 (mkWriter none)).2
          = some (nestErrMsg 2 (mkWriter none).docOutlines.length) ∧
        (apiHeader P0 "GET" "/u" 2 (mkWriter none)).1.docOutlines
          = (mkWriter none).docOutlines ∧
        (apiHeader P0 "GET" "/u" 2 (mkWriter none)).1.nodes = (mkWriter none).nodes)) :=
  ⟨by decide, addOutline_too_deep_error P0 (mkWriter none) 2 "A" none "GET" "/u" (by decide)⟩

/-! ### C1: outline path shape after a valid heading sequence -/

/-- C1 (counterexample): the heading sequence with levels 0, 1, 0 is valid
(each level is at most the current path length at the moment of the call)
and completes without error, yet it leaves the outline path array with
length 1, whereas the claim demands (maximum level seen) + 1 = 2: the
third call truncates the path back to a single entry. -/
theorem outline_path_maxlevel_cex :
    validHb P0 (mkWriter none)
        [HCall.h 0 "a" none, HCall.h 1 "b" none, HCall.h 0 "c" none] = true ∧
    (runH P0 [HCall.h 0 "a" none, HCall.h 1 "b" none, HCall.h 0 "c" none]
        (mkWriter none)).2 = none ∧
    (runH P0 [HCall.h 0 "a" none, HCall.h 1 "b" none, HCall.h 0 "c" none]
        (mkWriter none)).1.docOutlines.length = 1 ∧
    (runH P0 [HCall.h 0 "a" none, HCall.h 1 "b" none, HCall.h 0 "c" none]
        (mkWriter none)).1.docOutlines.length ≠ 2 := by decide

/-- C1 (amended): for every sequence of `header`/`apiHeader` calls in
which each requested level is non-negative and at most the current outline
path length, the run completes without error, the outline path array ends
with length (level of the LAST call) + 1 — not (maximum level seen) + 1 —
and the node stored at every index `k+1` was created (via `addItem`) as a
child of the node stored at index `k`; moreover a call with level equal to
the current length appends to the path, and a call with level strictly
below the current length replaces the entry at that level and truncates
all deeper entries. -/
theorem outline_path_run (P : Prim) (hs : List HCall) (h1 : hs ≠ [])
    (h2 : validHb P (mkWriter none) hs = true) :
    (runH P hs (mkWriter none)).2 = none ∧
    (runH P hs (mkWriter none)).1.docOutlines.length
        = (hs.getLast h1).level.toNat + 1 ∧
    linkedPath (runH P hs (mkWriter none)).1 ∧
    (∀ (w : Writer) (l : Int) (s : String), 0 ≤ l →
        l = (w.docOutlines.length : Int) →
        (addOutline l s w).1.docOutlines = w.docOutlines ++ [w.nodes.length]) ∧
    (∀ (w : Writer) (l : Int) (s : String), 0 ≤ l →
        l < (w.docOutlines.length : Int) →
        (addOutline l s w).1.docOutlines
          = (w.docOutlines.set l.toNat w.nodes.length).take (l.toNat + 1)) := by
  have hempty : linkedPath (mkWriter none) := by
    intro i a b ha hb
    have hnil : (mkWriter none).docOutlines = [] := rfl
    rw [hnil] at ha
    exact Option.noConfusion ha
  obtain ⟨r1, r2, r3⟩ := runH_ok P hs (mkWriter none) hempty h2
  refine ⟨r1, ?_, r2, ?_, ?_⟩
  · rw [r3, List.getLast?_eq_getLast_of_ne_nil h1]
  · intro w l s h0 heq
    by_cases hz : l = 0
    · subst hz
      rw [addOutline_zero]
      have : w.docOutlines = [] := List.length_eq_zero.1 (by omega)
      simp [this]
    · have hidx : l.toNat - 1 < w.docOutlines.length := by omega
      obtain ⟨pid, hget⟩ : ∃ pid, w.docOutlines.get? (l.toNat - 1) = some pid := by
        rw [List.get?_eq_get hidx]; exact ⟨_, rfl⟩
      rw [addOutline_pos w l s pid (by omega) (by omega) hget]
      have ht : l.toNat = w.docOutlines.length := by omega
      simp [ht, List.take_length]
  · intro w l s h0 hlt
    by_cases hz : l = 0
    · subst hz
      rw [addOutline_zero]
      have h01 : ((0 : Int).toNat) = 0 := rfl
      simp only [h01]
      rw [list_set_take_succ _ _ _ (by omega)]
    · have hidx : l.toNat - 1 < w.docOutlines.length := by omega
      obtain ⟨pid, hget⟩ : ∃ pid, w.docOutlines.get? (l.toNat - 1) = some pid := by
        rw [List.get?_eq_get hidx]; exact ⟨_, rfl⟩
      rw [addOutline_pos w l s pid (by omega) (by omega) hget]
      rw [list_set_take_succ _ _ _ (by omega)]

/-- Witness for `outline_path_run`: a `header` at level 0 followed by an
`apiHeader` at level 1. -/
theorem outline_path_run_wit :
    validHb P0 (mkWriter none) [HCall.h 0 "a" none, HCall.api "GET" "/u" 1] = true ∧
    (runH P0 [HCall.h 0 "a" none, HCall.api "GET" "/u" 1] (mkWriter none)).2 = none ∧
    (runH P0 [HCall.h 0 "a" none, HCall.api "GET" "/u" 1]
        (mkWriter none)).1.docOutlines.length = 2 ∧
    linkedPath (runH P0 [HCall.h 0 "a" none, HCall.api "GET" "/u" 1]
        (mkWriter none)).1 := by
  have h := outline_path_run P0 [HCall.h 0 "a" none, HCall.api "GET" "/u" 1]
      (by decide) (by decide)
  exact ⟨by decide, h.1, h.2.1, h.2.2.1⟩

/-! ### C10: `dataFields` preserves the cursor x position -/

/-- C10: `dataFields` captures the horizontal cursor position before the
first field and restores it after each field, so for every primitive
behaviour, every field list and every starting state the cursor x after
`dataFields` equals the cursor x when it was called. -/
theorem dataFields_preserves_x (P : Prim) (fs : List DataField) (w : Writer) :
    (dataFields P fs w).x = w.x := by
  have key : ∀ (l : List DataField) (acc : Writer),
      (l.foldl (dataFieldStep P w.x) acc).x = if l = [] then acc.x else w.x := by
    intro l
    induction l with
    | nil => intro acc; simp
    | cons f l' ih =>
      intro acc
      rw [List.foldl_cons, ih]
      by_cases hl : l' = []
      · simp [hl, dataFieldStep]
      · simp [hl]
  show (fs.foldl (dataFieldStep P w.x) w).x = w.x
  rw [key]
  split <;> rfl

/-! ### C9: the run sequence of `enumValues` -/

theorem text_empty_ops (P : Prim) (s : String) (o : TextOpts) (w : Writer) :
    (text P s {} o w).ops
      = w.ops ++ [Op.text w.curPage s (o.x.getD w.x) (o.y.getD w.y) w.active
          { o with lineGap := some (o.lineGap.getD (currentStyle w).lineGap) }] := rfl

theorem enum_fold_ops (P : Prim) (n : Nat) (nli ind : Rat) :
    ∀ (l : List (Nat × String)) (acc : Writer),
      ((l.foldl (fun acc iv =>
          let str := if iv.1 < n - 1 then iv.2 ++ ", " else iv.2
          let contd := decide (iv.1 < n - 1)
          if iv.1 = 0 then
            text P str {} { x := some nli, indent := some ind,
                            continued := some contd } acc
          else
            text P str {} { continued := some contd } acc) acc).ops).map opRunProj
        = acc.ops.map opRunProj
          ++ l.map (fun iv =>
              (if iv.1 < n - 1 then iv.2 ++ ", " else iv.2,
               some (decide (iv.1 < n - 1)),
               if iv.1 = 0 then some nli else none)) := by
  intro l
  induction l with
  | nil => intro acc; simp
  | cons x l' ih =>
    intro acc
    rw [List.foldl_cons]
    dsimp only
    by_cases hx : x.1 = 0
    · rw [if_pos hx, ih, text_empty_ops]
      simp [opRunProj, hx]
    · rw [if_neg hx, ih, text_empty_ops]
      simp [opRunProj, hx]

/-- C9: for every non-empty value list, `enumValues` emits — after the
`Values: ` label — exactly the run sequence `v1, `, …, `v(n-1), `, `vn`:
every run except the last is comma-suffixed and `continued`, the last run
is not comma-suffixed and not continued, and the first run is placed at
the fixed hanging-indent x-coordinate (the cursor after the label plus one
indent step). -/
theorem enumValues_runs (P : Prim) (vs : List String) (w : Writer) (h : vs ≠ []) :
    ((enumValues P vs w).ops).map opRunProj
      = w.ops.map opRunProj ++ [("Values: ", none, none)]
        ++ vs.enum.map (fun iv =>
            (if iv.1 < vs.length - 1 then iv.2 ++ ", " else iv.2,
             some (decide (iv.1 < vs.length - 1)),
             if iv.1 = 0
               then some ((moveUp P (text P "Values: " {} {} w)).x
                 + w.style.format.indentStep)
               else none)) := by
  have hops : (enumValues P vs w).ops
      = ((vs.enum.foldl (fun acc iv =>
          let str := if iv.1 < vs.length - 1 then iv.2 ++ ", " else iv.2
          let contd := decide (iv.1 < vs.length - 1)
          if iv.1 = 0 then
            text P str {}
              { x := some ((moveUp P (text P "Values: " {} {} w)).x
                  + (moveUp P (text P "Values: " {} {} w)).style.format.indentStep),
                indent := some (P.widthOf (moveUp P (text P "Values: " {} {} w)).active
                    "Values: "
                  - (moveUp P (text P "Values: " {} {} w)).style.format.indentStep),
                continued := some contd } acc
          else
            text P str {} { continued := some contd } acc)
        (pushStyle
          { fillColor :=
              some (moveUp P (text P "Values: " {} {} w)).style.color.highlight }
          (moveUp P (text P "Values: " {} {} w))).2)).ops := rfl
  rw [hops, enum_fold_ops]
  rw [pushStyle_snd_ops]
  have hw2 : (moveUp P (text P "Values: " {} {} w)).ops
      = w.ops ++ [Op.text w.curPage "Values: " w.x w.y w.active
          { lineGap := some (currentStyle w).lineGap }] := rfl
  rw [hw2, List.map_append]
  have hsty : (moveUp P (text P "Values: " {} {} w)).style = w.style := by simp
  rw [hsty]
  simp [opRunProj]

/-- Witness for `enumValues_runs` on the list `["A", "B", "C"]`. -/
theorem enumValues_runs_wit :
    (["A", "B", "C"] ≠ ([] : List String)) ∧
    ((enumValues P0 ["A", "B", "C"] (mkWriter none)).ops).map opRunProj
      = (mkWriter none).ops.map opRunProj ++ [("Values: ", none, none)]
        ++ (["A", "B", "C"] : List String).enum.map (fun iv =>
            (if iv.1 < (["A", "B", "C"] : List String).length - 1
               then iv.2 ++ ", " else iv.2,
             some (decide (iv.1 < (["A", "B", "C"] : List String).length - 1)),
             if iv.1 = 0
               then some ((moveUp P0 (text P0 "Values: " {} {} (mkWriter none))).x
                 + (mkWriter none).style.format.indentStep)
               else none)) :=
  ⟨by decide, enumValues_runs P0 ["A", "B", "C"] (mkWriter none) (by decide)⟩

/-! ### C4: external style configuration handling -/

/-- C4 (counterexample): for the external configuration that supplies only
`font.baseSize = 20`, the style effectively held by the writer has NO
`color.main` at all (the recognized-but-absent option does not retain its
documented default `#333333`), so the effective style is not the
documented defaults overlaid with the supplied fields; moreover the base
style captured by the constructor still has font size 10, not the supplied
20. -/
theorem ctor_style_overlay_cex :
    (ctorEffectiveStyle (some extBaseSizeOnly)).color.main = none ∧
    (specEffectiveStyle (some extBaseSizeOnly)).color.main = some "#333333" ∧
    ctorEffectiveStyle (some extBaseSizeOnly) ≠ specEffectiveStyle (some extBaseSizeOnly) ∧
    (ctorBaseStyle (some extBaseSizeOnly)).fontSize = 10 ∧
    (ctorBaseStyle (some extBaseSizeOnly)).fontSize ≠ 20 := by
  refine ⟨rfl, rfl, ?_, rfl, by decide⟩
  intro hcontra
  have : (ctorEffectiveStyle (some extBaseSizeOnly)).color.main
      = (specEffectiveStyle (some extBaseSizeOnly)).color.main := by rw [hcontra]
  simp [ctorEffectiveStyle, specEffectiveStyle, extBaseSizeOnly] at this

/-- C4 (amended): a supplied external style configuration replaces the
defaults wholesale — `this.style = style` — so recognized options absent
from it do not fall back to the documented defaults; and the writer's
captured base text style is computed from the defaults before the
replacement, so it is the same whatever configuration is supplied. -/
theorem ctor_style_wholesale (ext : ExtStyleCfg) :
    ctorEffectiveStyle (some ext) = ext ∧
    ctorEffectiveStyle none = toExt defaultStyle ∧
    ctorBaseStyle (some ext) = ctorBaseStyle none ∧
    ctorBaseStyle (some ext) = mkBaseStyle ∧
    (mkWriter none).baseStyle = mkBaseStyle :=
  ⟨rfl, rfl, rfl, rfl, rfl⟩

/-! ### C7: the finishing pass -/

@[simp] theorem Page_eta (p : Page) :
    (⟨p.top, p.bottom, p.height⟩ : Page) = p := rfl

theorem stampPage_step (P : Prim) (count : Nat) (i : Nat) (w0 acc : Writer)
    (hpages : acc.pages = w0.pages) (hphn : acc.pageHeaderNodes = w0.pageHeaderNodes)
    (hi : i < w0.pages.length) :
    (stampPage P count i acc).pages = w0.pages ∧
    (stampPage P count i acc).pageHeaderNodes = w0.pageHeaderNodes ∧
    ((stampPage P count i acc).ops).map opStampProj
      = acc.ops.map opStampProj ++ stampProj w0 count i := by
  unfold stampPage
  by_cases hz : 0 < i
  · have hnz : ¬ (i = 0) := by omega
    by_cases ht : truthyS w0.pageHeaderNodes[i]?
    · refine ⟨?_, ?_, ?_⟩ <;>
        simp [withStyle, hz, hnz, ht, hpages, hphn, stampProj, text_empty_ops,
          opStampProj, list_set_set_general, list_getD_set_self, list_set_getD_self,
          list_set_getElem_self, hi]
    · refine ⟨?_, ?_, ?_⟩ <;>
        simp [withStyle, hz, hnz, ht, hpages, hphn, stampProj, text_empty_ops,
          opStampProj, list_set_set_general, list_getD_set_self, list_set_getD_self,
          list_set_getElem_self, hi]
  · have hz0 : i = 0 := by omega
    subst hz0
    refine ⟨?_, ?_, ?_⟩ <;>
      simp [withStyle, hpages, hphn, stampProj, text_empty_ops, opStampProj,
        list_set_set_general, list_getD_set_self, list_set_getD_self,
        list_set_getElem_self, hi]

theorem finish_fold (P : Prim) (w : Writer) :
    ∀ n, n ≤ w.pages.length →
      ((List.range n).foldl (fun acc i => stampPage P w.pages.length i acc) w).pages
          = w.pages ∧
      ((List.range n).foldl (fun acc i => stampPage P w.pages.length i acc)
          w).pageHeaderNodes = w.pageHeaderNodes ∧
      (((List.range n).foldl (fun acc i => stampPage P w.pages.length i acc) w).ops).map
          opStampProj
        = w.ops.map opStampProj ++ (List.range n).bind (stampProj w w.pages.length) := by
  intro n
  induction n with
  | zero => intro _; simp
  | succ m ih =>
    intro hn
    obtain ⟨i1, i2, i3⟩ := ih (by omega)
    rw [List.range_succ, List.foldl_append, List.foldl_cons, List.foldl_nil]
    obtain ⟨s1, s2, s3⟩ := stampPage_step P w.pages.length m w _ i1 i2 (by omega)
    refine ⟨s1, s2, ?_⟩
    rw [s3, i3]
    simp [List.append_bind, List.append_assoc]

/-- C7: for a document with N ≥ 1 buffered pages, `finish` revisits every
page: the title page (index 0) receives no stamp at all; every page
`i ∈ [1, N-1]` receives the recorded section title near the top (at
y = top margin / 2, right-aligned) when that record is non-empty, followed
by the `Page i / (N-1)` label near the bottom (at y = page height −
bottom margin / 2, right-aligned) — exactly N−1 footer labels in total;
every page's margins are restored afterwards (the page list is unchanged),
and the document is sealed. -/
theorem finish_stamps (P : Prim) (w : Writer) (h : 1 ≤ w.pages.length) :
    (finish P w).sealed = true ∧
    (finish P w).pages = w.pages ∧
    ((finish P w).ops).map opStampProj
        = w.ops.map opStampProj
          ++ (List.range w.pages.length).bind (stampProj w w.pages.length) ∧
    stampProj w w.pages.length 0 = [] ∧
    (∀ i, 0 < i → i < w.pages.length →
        (stampProj w w.pages.length i).getLast?
          = some (i, "Page " ++ toString i ++ " / " ++ toString (w.pages.length - 1),
              some ((w.pages.getD i { top := 0, bottom := 0, height := 0 }).height
                - (w.pages.getD i { top := 0, bottom := 0, height := 0 }).bottom / 2),
              some "right")) ∧
    (∀ t ∈ (List.range w.pages.length).bind (stampProj w w.pages.length), t.1 ≠ 0) := by
  obtain ⟨f1, f2, f3⟩ := finish_fold P w w.pages.length (le_refl _)
  refine ⟨rfl, ?_, ?_, rfl, ?_, ?_⟩
  · simpa [finish] using f1
  · simpa [finish] using f3
  · intro i h0 hN
    unfold stampProj
    rw [if_neg (by omega)]
    simp
  · intro t ht
    obtain ⟨i, hir, hti⟩ := List.mem_bind.1 ht
    by_cases hz : i = 0
    · subst hz
      simp [stampProj] at hti
    · unfold stampProj at hti
      rw [if_neg hz] at hti
      rcases List.mem_append.1 hti with h1 | h2
      · split at h1
        · have := List.mem_singleton.1 h1
          subst this
          simpa using hz
        · simp at h1
      · have := List.mem_singleton.1 h2
        subst this
        simpa using hz

/-- Witness for `finish_stamps` on a concrete two-page document. -/
theorem finish_stamps_wit :
    1 ≤ w2pages.pages.length ∧
    ((finish P0 w2pages).sealed = true ∧
      (finish P0 w2pages).pages = w2pages.pages ∧
      ((finish P0 w2pages).ops).map opStampProj
          = w2pages.ops.map opStampProj
            ++ (List.range w2pages.pages.length).bind
                (stampProj w2pages w2pages.pages.length) ∧
      stampProj w2pages w2pages.pages.length 0 = [] ∧
      (∀ i, 0 < i → i < w2pages.pages.length →
          (stampProj w2pages w2pages.pages.length i).getLast?
            = some (i, "Page " ++ toString i ++ " / "
                ++ toString (w2pages.pages.length - 1),
                some ((w2pages.pages.getD i { top := 0, bottom := 0, height := 0 }).height
                  - (w2pages.pages.getD i
                      { top := 0, bottom := 0, height := 0 }).bottom / 2),
                some "right")) ∧
      (∀ t ∈ (List.range w2pages.pages.length).bind
          (stampProj w2pages w2pages.pages.length), t.1 ≠ 0)) :=
  ⟨by decide, finish_stamps P0 w2pages (by decide)⟩

/-! ### C8: the page registry invariant -/

theorem foldl_reg {α : Type} (f : Writer → α → Writer)
    (hf : ∀ acc a, (f acc a).pageHeaderNodes = acc.pageHeaderNodes ∧
        (f acc a).pageNumber = acc.pageNumber ∧
        (f acc a).pages.length = acc.pages.length) :
    ∀ (l : List α) (acc : Writer),
      (l.foldl f acc).pageHeaderNodes = acc.pageHeaderNodes ∧
      (l.foldl f acc).pageNumber = acc.pageNumber ∧
      (l.foldl f acc).pages.length = acc.pages.length := by
  intro l
  induction l with
  | nil => intro acc; exact ⟨rfl, rfl, rfl⟩
  | cons x l' ih =>
    intro acc
    rw [List.foldl_cons]
    obtain ⟨a1, a2, a3⟩ := hf acc x
    obtain ⟨b1, b2, b3⟩ := ih (f acc x)
    exact ⟨by rw [b1, a1], by rw [b2, a2], by rw [b3, a3]⟩

theorem dataFieldStep_reg (P : Prim) (ox : Rat) (acc : Writer) (f : DataField) :
    (dataFieldStep P ox acc f).pageHeaderNodes = acc.pageHeaderNodes ∧
    (dataFieldStep P ox acc f).pageNumber = acc.pageNumber ∧
    (dataFieldStep P ox acc f).pages.length = acc.pages.length := by
  unfold dataFieldStep
  dsimp only
  refine ⟨?_, ?_, ?_⟩ <;> (repeat' split) <;> simp

theorem stampPage_reg (P : Prim) (c i : Nat) (acc : Writer) :
    (stampPage P c i acc).pageHeaderNodes = acc.pageHeaderNodes ∧
    (stampPage P c i acc).pageNumber = acc.pageNumber ∧
    (stampPage P c i acc).pages.length = acc.pages.length := by
  unfold stampPage
  dsimp only [withStyle]
  refine ⟨?_, ?_, ?_⟩ <;> (repeat' split) <;> simp

theorem addOutline_reg (l : Int) (s : String) (w : Writer) :
    (addOutline l s w).1.pageHeaderNodes = w.pageHeaderNodes ∧
    (addOutline l s w).1.pageNumber = w.pageNumber ∧
    (addOutline l s w).1.pages = w.pages := by
  unfold addOutline placeOutline
  dsimp only
  refine ⟨?_, ?_, ?_⟩ <;> (repeat' split) <;> rfl

theorem enum_fold_reg (P : Prim) (n : Nat) (nli ind : Rat) :
    ∀ (l : List (Nat × String)) (acc : Writer),
      (l.foldl (fun acc iv =>
          let str := if iv.1 < n - 1 then iv.2 ++ ", " else iv.2
          let contd := decide (iv.1 < n - 1)
          if iv.1 = 0 then
            text P str {} { x := some nli, indent := some ind,
                            continued := some contd } acc
          else
            text P str {} { continued := some contd } acc) acc).pageHeaderNodes
          = acc.pageHeaderNodes ∧
        (l.foldl (fun acc iv =>
          let str := if iv.1 < n - 1 then iv.2 ++ ", " else iv.2
          let contd := decide (iv.1 < n - 1)
          if iv.1 = 0 then
            text P str {} { x := some nli, indent := some ind,
                            continued := some contd } acc
          else
            text P str {} { continued := some contd } acc) acc).pageNumber
          = acc.pageNumber ∧
        (l.foldl (fun acc iv =>
          let str := if iv.1 < n - 1 then iv.2 ++ ", " else iv.2
          let contd := decide (iv.1 < n - 1)
          if iv.1 = 0 then
            text P str {} { x := some nli, indent := some ind,
                            continued := some contd } acc
          else
            text P str {} { continued := some contd } acc) acc).pages.length
          = acc.pages.length := by
  refine foldl_reg _ ?_
  intro acc iv
  dsimp only
  refine ⟨?_, ?_, ?_⟩ <;> (repeat' split) <;> simp

theorem enumValues_reg (P : Prim) (vs : List String) (w : Writer) :
    (enumValues P vs w).pageHeaderNodes = w.pageHeaderNodes ∧
    (enumValues P vs w).pageNumber = w.pageNumber ∧
    (enumValues P vs w).pages.length = w.pages.length := by
  have hrw : enumValues P vs w
      = (popStyle ((vs.enum.foldl (fun acc iv =>
          let str := if iv.1 < vs.length - 1 then iv.2 ++ ", " else iv.2
          let contd := decide (iv.1 < vs.length - 1)
          if iv.1 = 0 then
            text P str {}
              { x := some ((moveUp P (text P "Values: " {} {} w)).x
                  + (moveUp P (text P "Values: " {} {} w)).style.format.indentStep),
                indent := some (P.widthOf (moveUp P (text P "Values: " {} {} w)).active
                    "Values: "
                  - (moveUp P (text P "Values: " {} {} w)).style.format.indentStep),
                continued := some contd } acc
          else
            text P str {} { continued := some contd } acc)
        (pushStyle
          { fillColor :=
              some (moveUp P (text P "Values: " {} {} w)).style.color.highlight }
          (moveUp P (text P "Values: " {} {} w))).2))).2 := rfl
  obtain ⟨e1, e2, e3⟩ := enum_fold_reg P vs.length
    ((moveUp P (text P "Values: " {} {} w)).x
      + (moveUp P (text P "Values: " {} {} w)).style.format.indentStep)
    (P.widthOf (moveUp P (text P "Values: " {} {} w)).active "Values: "
      - (moveUp P (text P "Values: " {} {} w)).style.format.indentStep)
    vs.enum
    (pushStyle
      { fillColor :=
          some (moveUp P (text P "Values: " {} {} w)).style.color.highlight }
      (moveUp P (text P "Values: " {} {} w))).2
  rw [hrw]
  refine ⟨?_, ?_, ?_⟩
  · rw [popStyle_snd_pageHeaderNodes, e1]
    simp
  · rw [popStyle_snd_pageNumber, e2]
    simp
  · rw [popStyle_snd_pages, e3]
    simp

theorem stepCall_reg (P : Prim) (c : Call) (w : Writer) :
    ∃ l : List String,
      (stepCall P c w).1.pageHeaderNodes = w.pageHeaderNodes ++ l ∧
      (stepCall P c w).1.pageNumber = w.pageNumber + l.length ∧
      (stepCall P c w).1.pages.length = w.pages.length + l.length := by
  cases c with
  | titlePage t s d =>
    refine ⟨[w.currentSectionName], ?_, ?_, ?_⟩ <;>
    · unfold stepCall addTitlePage
      dsimp only
      (repeat' split) <;> simp [addPage]
  | sect n =>
    refine ⟨[n], ?_, ?_, ?_⟩ <;>
      simp [stepCall, newSection, addPage, resetStyle, setStyle]
  | hdr l s a =>
    obtain ⟨wB, heq, _, _, hphn, hnum, hpg, _, _⟩ := header_run P l s a w
    obtain ⟨a1, a2, a3⟩ := addOutline_reg l s wB
    refine ⟨[], ?_, ?_, ?_⟩ <;>
      simp [stepCall, heq, a1, a2, a3, hphn, hnum, hpg]
  | apiHdr m ep l =>
    obtain ⟨wB, heq, _, _, hphn, hnum, hpg, _, _⟩ := apiHeader_run P m ep l w
    obtain ⟨a1, a2, a3⟩ := addOutline_reg l (m ++ " " ++ ep) wB
    refine ⟨[], ?_, ?_, ?_⟩ <;>
      simp [stepCall, heq, a1, a2, a3, hphn, hnum, hpg]
  | subHdr s =>
    refine ⟨[], ?_, ?_, ?_⟩ <;> simp [stepCall, subHeader, withStyle]
  | par s =>
    refine ⟨[], ?_, ?_, ?_⟩ <;> simp [stepCall, para]
  | descr s o =>
    refine ⟨[], ?_, ?_, ?_⟩ <;> simp [stepCall, description]
  | txt s =>
    refine ⟨[], ?_, ?_, ?_⟩ <;> simp [stepCall]
  | flds fs =>
    obtain ⟨f1, f2, f3⟩ := foldl_reg (dataFieldStep P w.x)
      (fun acc a => dataFieldStep_reg P w.x acc a) fs w
    refine ⟨[], ?_, ?_, ?_⟩ <;> simp [stepCall, dataFields, f1, f2, f3]
  | enums vs =>
    obtain ⟨e1, e2, e3⟩ := enumValues_reg P vs w
    refine ⟨[], ?_, ?_, ?_⟩ <;> simp [stepCall, e1, e2, e3]
  | indS =>
    refine ⟨[], ?_, ?_, ?_⟩ <;> simp [stepCall, indentStart]
  | indE =>
    refine ⟨[], ?_, ?_, ?_⟩ <;> simp [stepCall, indentEnd]
  | lb n =>
    refine ⟨[], ?_, ?_, ?_⟩ <;> simp [stepCall, lineBreak]
  | fin =>
    obtain ⟨f1, f2, f3⟩ := foldl_reg (fun acc i => stampPage P w.pages.length i acc)
      (fun acc i => stampPage_reg P w.pages.length i acc) (List.range w.pages.length) w
    refine ⟨[], ?_, ?_, ?_⟩ <;> simp [stepCall, finish, f1, f2, f3]

theorem runCalls_reg (P : Prim) (cs : List Call) : ∀ (w : Writer),
    ∃ l : List String,
      (runCalls P cs w).1.pageHeaderNodes = w.pageHeaderNodes ++ l ∧
      (runCalls P cs w).1.pageNumber = w.pageNumber + l.length ∧
      (runCalls P cs w).1.pages.length = w.pages.length + l.length := by
  induction cs with
  | nil => intro w; exact ⟨[], by simp [runCalls], rfl, rfl⟩
  | cons c cs' ih =>
    intro w
    obtain ⟨l1, a1, a2, a3⟩ := stepCall_reg P c w
    cases he : (stepCall P c w).2 with
    | none =>
      have hrw : runCalls P (c :: cs') w = runCalls P cs' (stepCall P c w).1 := by
        rw [runCalls]
        simp only [he]
      rw [hrw]
      obtain ⟨l2, b1, b2, b3⟩ := ih (stepCall P c w).1
      refine ⟨l1 ++ l2, ?_, ?_, ?_⟩
      · rw [b1, a1, List.append_assoc]
      · rw [b2, a2, List.length_append]; omega
      · rw [b3, a3, List.length_append]; omega
    | some e =>
      have hrw : runCalls P (c :: cs') w = ((stepCall P c w).1, some e) := by
        rw [runCalls]
        simp only [he]
      rw [hrw]
      exact ⟨l1, a1, a2, a3⟩

/-- C8: the page registry invariant.  For every facade-call sequence that
begins with `addTitlePage` (run from a fresh writer), after the run the
length of `pageHeaderNodes` equals the page counter and equals the number
of pages created; page-creation events are the only points that touch the
registry, appending exactly the `currentSectionName` active at that
moment; and the entry for the first (title) page is the empty string,
because `addTitlePage` runs before any `newSection` sets a section
name. -/
theorem page_registry_invariant (P : Prim) (t : String) (s d : Option String)
    (cs : List Call) :
    (runCalls P (Call.titlePage t s d :: cs) (mkWriter none)).1.pageHeaderNodes.length
        = (runCalls P (Call.titlePage t s d :: cs) (mkWriter none)).1.pageNumber ∧
    (runCalls P (Call.titlePage t s d :: cs) (mkWriter none)).1.pageHeaderNodes.length
        = (runCalls P (Call.titlePage t s d :: cs) (mkWriter none)).1.pages.length ∧
    (runCalls P (Call.titlePage t s d :: cs) (mkWriter none)).1.pageHeaderNodes.get? 0
        = some "" := by
  have hT : (addTitlePage P t s d (mkWriter none)).pageHeaderNodes = [""] ∧
      (addTitlePage P t s d (mkWriter none)).pageNumber = 1 ∧
      (addTitlePage P t s d (mkWriter none)).pages.length = 1 := by
    refine ⟨?_, ?_, ?_⟩ <;>
    · unfold addTitlePage
      dsimp only
      (repeat' split) <;> simp [addPage, mkWriter]
  have hrw : runCalls P (Call.titlePage t s d :: cs) (mkWriter none)
      = runCalls P cs (addTitlePage P t s d (mkWriter none)) := rfl
  rw [hrw]
  obtain ⟨l, h1, h2, h3⟩ := runCalls_reg P cs (addTitlePage P t s d (mkWriter none))
  rw [h1, h2, h3, hT.1, hT.2.1, hT.2.2]
  refine ⟨by simp; omega, by simp; omega, ?_⟩
  rw [List.get?_append (by simp)]
  rfl

end PW
